import Mathlib

/-!
Shallow embedding of the Game of Life engine (`game_of_life.py`):
cells with traits (name, color, glyph), the grid, neighbor counting,
the generation transition with trait inheritance, mutation pass,
pattern loading and the maintenance operations.  Randomness drawn by
the Python code (`random.shuffle`, `random.choice`, Bernoulli trials)
is supplied explicitly through per-cell oracles, so every function is
a pure, executable Lean definition.
-/

namespace GameOfLife

/-- A cell of the grid: liveness plus the trait fields
(`name`, `color`, `symbol`), mirroring class `Cell`. -/
structure Cell where
  alive : Bool
  name : String
  color : String
  symbol : String
deriving DecidableEq, Repr

/-- The default cell produced by `Cell()` in Python:
dead, unnamed, white, full-block glyph. -/
def defaultCell : Cell :=
  { alive := false, name := "", color := "white", symbol := "█" }

/-- `GameOfLife.__init__`: grid state.  The cell array is a
height-by-width list of rows; `mutationRate` is the constructor's
`mutation_rate`. -/
structure Game where
  width : Nat
  height : Nat
  grid : List (List Cell)
  generation : Nat
  mutationRate : ℚ
  cellTypes : List Cell
deriving Repr

/-- Fresh all-default grid of the given dimensions
(the list comprehension `[[Cell() for _ in range(width)] for _ in range(height)]`). -/
def freshGrid (height width : Nat) : List (List Cell) :=
  (List.range height).map (fun _ => (List.range width).map (fun _ => defaultCell))

/-- `GameOfLife(width, height, mutation_rate)`. -/
def mkGame (width height : Nat) (mutationRate : ℚ) : Game :=
  { width := width, height := height, grid := freshGrid height width,
    generation := 0, mutationRate := mutationRate, cellTypes := [] }

/-- Read the cell stored at row `x`, column `y` (callers bounds-check
first, exactly as the Python code indexes `self.grid[x][y]` only after
a bounds check; out of range we return the default cell). -/
def cellAt (grid : List (List Cell)) (x y : Nat) : Cell :=
  (grid.getD x []).getD y defaultCell

/-- Replace the element at index `i` by `f` of itself; the list is
unchanged when `i` is out of range (Python list assignment is only
reached in-bounds). -/
def modifyList {α : Type} : List α → Nat → (α → α) → List α
  | [], _, _ => []
  | a :: l, 0, f => f a :: l
  | a :: l, Nat.succ n, f => a :: modifyList l n f

/-- Apply `f` to the cell at row `x`, column `y` of the grid. -/
def modifyGrid (grid : List (List Cell)) (x y : Nat) (f : Cell → Cell) :
    List (List Cell) :=
  modifyList grid x (fun row => modifyList row y f)

/-- The bounds check `0 <= x < self.height and 0 <= y < self.width`. -/
def inBounds (g : Game) (x y : Int) : Bool :=
  decide (0 ≤ x) && decide (x < (g.height : Int)) &&
  decide (0 ≤ y) && decide (y < (g.width : Int))

/-- `GameOfLife.set_cell(x, y, alive, cell_type)`: silently ignores
out-of-bounds positions; with a cell type it stores a copy of that
type, otherwise it overwrites only the `alive` flag. -/
def setCell (g : Game) (x y : Int) (alive : Bool) (cellType : Option Cell) :
    Game :=
  if inBounds g x y then
    match cellType with
    | some ct =>
        { g with grid := modifyGrid g.grid x.toNat y.toNat (fun _ => ct) }
    | none =>
        let f : Cell → Cell := fun c => { c with alive := alive }
        { g with grid := modifyGrid g.grid x.toNat y.toNat f }
  else g

/-- `GameOfLife.get_cell(x, y)`: `alive` of the cell, `False` out of
bounds. -/
def getCell (g : Game) (x y : Int) : Bool :=
  if inBounds g x y then (cellAt g.grid x.toNat y.toNat).alive else false

/-- The eight neighbor offsets, in the Python enumeration order
(`dx` outer over -1,0,1, `dy` inner over -1,0,1, skipping (0,0)). -/
def deltas : List (Int × Int) :=
  [(-1, -1), (-1, 0), (-1, 1), (0, -1), (0, 1), (1, -1), (1, 0), (1, 1)]

/-- `GameOfLife.count_neighbors(x, y)`: number of alive neighbors,
clipped at the boundary. -/
def countNeighbors (g : Game) (x y : Nat) : Nat :=
  (deltas.filter (fun d =>
    let nx := (x : Int) + d.1
    let ny := (y : Int) + d.2
    inBounds g nx ny && (cellAt g.grid nx.toNat ny.toNat).alive)).length

/-- `GameOfLife._get_alive_neighbors(x, y)`: the alive neighbor cells
in the same enumeration order. -/
def getAliveNeighbors (g : Game) (x y : Nat) : List Cell :=
  deltas.filterMap (fun d =>
    let nx := (x : Int) + d.1
    let ny := (y : Int) + d.2
    if inBounds g nx ny then
      let c := cellAt g.grid nx.toNat ny.toNat
      if c.alive then some c else none
    else none)

/-- `GameOfLife._are_compatible(cell1, cell2)`: both names non-empty
(Python truthiness of strings), or differing symbol, or differing
color. -/
def areCompatible (cell1 cell2 : Cell) : Bool :=
  if cell1.name ≠ "" && cell2.name ≠ "" then true
  else if cell1.symbol ≠ cell2.symbol || cell1.color ≠ cell2.color then true
  else false

/-- The nested pair scan of `_select_parents`: for `i` ascending and
`j > i` ascending, the first pair satisfying `_are_compatible`. -/
def findCompatiblePair : List Cell → Option (Cell × Cell)
  | [] => none
  | c :: rest =>
    match rest.find? (fun d => areCompatible c d) with
    | some d => some (c, d)
    | none => findCompatiblePair rest

/-- `GameOfLife._select_parents(neighbors)`.  `random.shuffle` is
modelled by the explicit permutation function `shuffle`; theorems
assume it permutes its argument.  Returns the defensive fallback for
fewer than two neighbors, otherwise the first compatible pair of the
shuffled list, otherwise its first two entries. -/
def selectParents (shuffle : List Cell → List Cell) (neighbors : List Cell) :
    Option Cell × Option Cell :=
  if neighbors.length < 2 then (neighbors.head?, none)
  else
    match findCompatiblePair (shuffle neighbors) with
    | some p => (some p.1, some p.2)
    | none => ((shuffle neighbors)[0]?, (shuffle neighbors)[1]?)

/-- `GameOfLife._create_offspring(parent1, parent2)`.  The three
booleans stand for the `random.choice`/`random.random` draws: `symPick`
and `colPick` select parent 1's symbol/color when true, `namePick`
puts parent 1's name first in the hybrid name. -/
def createOffspring (symPick colPick namePick : Bool) (parent1 : Cell)
    (parent2 : Option Cell) : Cell :=
  match parent2 with
  | none =>
      { alive := true, symbol := parent1.symbol, color := parent1.color,
        name := parent1.name }
  | some p2 =>
      { alive := true
        symbol := if symPick then parent1.symbol else p2.symbol
        color := if colPick then parent1.color else p2.color
        name :=
          if parent1.name ≠ "" && p2.name ≠ "" then
            if namePick then parent1.name ++ "-" ++ p2.name
            else p2.name ++ "-" ++ parent1.name
          else if parent1.name ≠ "" then parent1.name
          else if p2.name ≠ "" then p2.name
          else "" }

/-- The 7-entry color palette of `_mutate_cell`. -/
def mutationColors : List String :=
  ["white", "red", "green", "blue", "yellow", "magenta", "cyan"]

/-- The 7-entry symbol palette of `_mutate_cell`. -/
def mutationSymbols : List String :=
  ["█", "●", "■", "◆", "★", "♦", "▲"]

/-- `GameOfLife._mutate_cell(cell)`: with the color trial (probability
0.5) reassign the color to palette entry `colIdx`, independently with
the symbol trial (probability 0.3) reassign the symbol to palette
entry `symIdx`. -/
def mutateCell (colTrial : Bool) (colIdx : Nat) (symTrial : Bool)
    (symIdx : Nat) (cell : Cell) : Cell :=
  let c1 :=
    if colTrial then { cell with color := mutationColors.getD colIdx "white" }
    else cell
  if symTrial then { c1 with symbol := mutationSymbols.getD symIdx "█" }
  else c1

/-- The random draws one iteration of the `next_generation` loop can
consume, for one grid position. -/
structure CellOracle where
  shuffle : List Cell → List Cell
  symPick : Bool
  colPick : Bool
  namePick : Bool
  mutTrial : Bool
  killTrial : Bool
  birthTrial : Bool
  colTrial : Bool
  colIdx : Nat
  symTrial : Bool
  symIdx : Nat

/-- The oracle consuming no optional randomness: identity shuffle,
first-parent picks, all Bernoulli trials failing. -/
def quietOracle : CellOracle :=
  { shuffle := id, symPick := true, colPick := true, namePick := true,
    mutTrial := false, killTrial := false, birthTrial := false,
    colTrial := false, colIdx := 0, symTrial := false, symIdx := 0 }

/-- A full random tape: one `CellOracle` per grid position. -/
def Oracle : Type := Nat → Nat → CellOracle

/-- The tape in which no optional randomness fires anywhere. -/
def quietTape : Oracle := fun _ _ => quietOracle

/-- Python truthiness of `parent1` at `if parent1:` — `None` is falsy,
a `Cell` delegates to `Cell.__bool__`, i.e. its `alive` flag. -/
def cellTruthy : Option Cell → Bool
  | none => false
  | some c => c.alive

/-- The base Game of Life rule of `next_generation` for one position,
before the mutation block: survival copies the cell, birth breeds an
offspring from selected parents (or bare-alive fallback when the
`if parent1` guard fails), everything else is a fresh default cell. -/
def baseCell (g : Game) (oc : CellOracle) (x y : Nat) : Cell :=
  if (cellAt g.grid x y).alive then
    if countNeighbors g x y = 2 ∨ countNeighbors g x y = 3 then
      cellAt g.grid x y
    else defaultCell
  else
    if countNeighbors g x y = 3 then
      if cellTruthy (selectParents oc.shuffle (getAliveNeighbors g x y)).1 then
        createOffspring oc.symPick oc.colPick oc.namePick
          ((selectParents oc.shuffle (getAliveNeighbors g x y)).1.getD
            defaultCell)
          (selectParents oc.shuffle (getAliveNeighbors g x y)).2
      else { alive := true, name := "", color := "white", symbol := "█" }
    else defaultCell

/-- The mutation block of `next_generation` for one position: when the
rate is positive and the Bernoulli trial fires, an alive cell is
killed (3% path — only the `alive` flag is cleared) or perturbed, a
dead cell is spontaneously birthed (1% path) and perturbed. -/
def mutatePass (g : Game) (oc : CellOracle) (c : Cell) : Cell :=
  if 0 < g.mutationRate then
    if oc.mutTrial then
      if c.alive then
        if oc.killTrial then { c with alive := false }
        else mutateCell oc.colTrial oc.colIdx oc.symTrial oc.symIdx c
      else
        if oc.birthTrial then
          mutateCell oc.colTrial oc.colIdx oc.symTrial oc.symIdx
            { c with alive := true }
        else c
    else c
  else c

/-- `GameOfLife.next_generation()`: the next grid computed cell by
cell from the frozen current grid, then the swap and the generation
increment. -/
def nextGeneration (o : Oracle) (g : Game) : Game :=
  { g with
    grid := (List.range g.height).map (fun x =>
      (List.range g.width).map (fun y =>
        mutatePass g (o x y) (baseCell g (o x y) x y)))
    generation := g.generation + 1 }

/-- `GameOfLife.clear_grid()`. -/
def clearGrid (g : Game) : Game :=
  { g with grid := freshGrid g.height g.width, generation := 0 }

/-- The coordinate table of `load_pattern`. -/
def patternCoords (name : String) : Option (List (Int × Int)) :=
  if name = "glider" then
    some [(1, 2), (2, 3), (3, 1), (3, 2), (3, 3)]
  else if name = "blinker" then
    some [(1, 1), (1, 2), (1, 3)]
  else if name = "toad" then
    some [(2, 2), (2, 3), (2, 4), (3, 1), (3, 2), (3, 3)]
  else if name = "beacon" then
    some [(1, 1), (1, 2), (2, 1), (3, 4), (4, 3), (4, 4)]
  else if name = "pulsar" then
    some [(2, 4), (2, 5), (2, 6), (2, 10), (2, 11), (2, 12),
      (4, 2), (4, 7), (4, 9), (4, 14),
      (5, 2), (5, 7), (5, 9), (5, 14),
      (6, 2), (6, 7), (6, 9), (6, 14),
      (7, 4), (7, 5), (7, 6), (7, 10), (7, 11), (7, 12),
      (9, 4), (9, 5), (9, 6), (9, 10), (9, 11), (9, 12),
      (10, 2), (10, 7), (10, 9), (10, 14),
      (11, 2), (11, 7), (11, 9), (11, 14),
      (12, 2), (12, 7), (12, 9), (12, 14),
      (14, 4), (14, 5), (14, 6), (14, 10), (14, 11), (14, 12)]
  else none

/-- `GameOfLife.load_pattern(pattern_name)`: clear first, then either
seed the listed coordinates and return `True`, or return `False`. -/
def loadPattern (g : Game) (name : String) : Bool × Game :=
  let g1 := clearGrid g
  match patternCoords name with
  | some coords =>
      (true, coords.foldl (fun acc p => setCell acc p.1 p.2 true none) g1)
  | none => (false, g1)

/-- `GameOfLife.add_cell_type(name, color, symbol)`: registers and
returns an alive template cell. -/
def addCellType (g : Game) (name color symbol : String) : Cell × Game :=
  let ct : Cell := { alive := true, name := name, color := color, symbol := symbol }
  (ct, { g with cellTypes := g.cellTypes ++ [ct] })

/-- Observation: liveness of the cell at row `x`, column `y`. -/
def aliveAt (g : Game) (x y : Nat) : Bool :=
  (cellAt g.grid x y).alive

/-- Observation: number of alive cells of the grid
(`sum(1 for row in self.grid for cell in row if cell.alive)` in the tests). -/
def aliveCount (g : Game) : Nat :=
  Finset.sum (Finset.range g.height)
    (fun x => ((Finset.range g.width).filter (fun y => aliveAt g x y = true)).card)

/-- Two games agree on dimensions and on the liveness of every cell. -/
def SameAlive (g g1 : Game) : Prop :=
  g.width = g1.width ∧ g.height = g1.height ∧ ∀ x y, aliveAt g x y = aliveAt g1 x y

/-- The grid list really has the advertised `height × width` shape
(true of every game the constructor and the operations produce). -/
def WFGrid (g : Game) : Prop :=
  g.grid.length = g.height ∧ ∀ row ∈ g.grid, row.length = g.width

/-- The state-changing operations of the public interface, for stating
whole-lifetime invariants.  A `step` carries the random tape it
consumes. -/
inductive Op where
  | set (x y : Int) (alive : Bool) (cellType : Option Cell)
  | step (o : Oracle)
  | clear
  | load (name : String)
  | addType (name color symbol : String)

/-- Apply one operation to the game state. -/
def applyOp (g : Game) : Op → Game
  | Op.set x y alive ct => setCell g x y alive ct
  | Op.step o => nextGeneration o g
  | Op.clear => clearGrid g
  | Op.load name => (loadPattern g name).2
  | Op.addType name color symbol => (addCellType g name color symbol).2

/-- Run a sequence of operations from left to right. -/
def runOps (g : Game) (ops : List Op) : Game :=
  ops.foldl applyOp g

/-- Fixture: a 2×2 all-alive block on a 3×3 grid, mutation rate 0. -/
def blockGame : Game :=
  setCell (setCell (setCell (setCell (mkGame 3 3 0) 0 0 true none)
    0 1 true none) 1 0 true none) 1 1 true none

/-- Fixture: a 3×3 grid, mutation rate 0, with the top row alive —
cell (1,1) is dead with exactly 3 alive neighbors. -/
def rowGame : Game :=
  setCell (setCell (setCell (mkGame 3 3 0) 0 0 true none)
    0 1 true none) 0 2 true none

/-- Fixture: an alive red cell (non-default color, no name). -/
def redCell : Cell :=
  { alive := true, name := "", color := "red", symbol := "█" }

/-- Fixture: a 2×2 all-alive block on a 2×2 grid with mutation rate 1,
whose top-left cell is red. -/
def redBlockGame : Game :=
  setCell (setCell (setCell (setCell (mkGame 2 2 1) 0 0 true (some redCell))
    0 1 true none) 1 0 true none) 1 1 true none

/-- Fixture: the random tape whose mutation trial and kill trial fire
at every position. -/
def killTape : Oracle := fun _ _ =>
  { quietOracle with mutTrial := true, killTrial := true }

/-- Fixture: a 2×2 grid with one alive cell and a bumped generation
counter (prior state for the unknown-pattern load). -/
def seededGame : Game :=
  { setCell (mkGame 2 2 0) 0 0 true none with generation := 7 }

/-- Fixture: the horizontal blinker of the test-suite — a 5×5 grid,
mutation rate 0, alive cells exactly at (2,1), (2,2), (2,3). -/
def blinkerGame : Game :=
  setCell (setCell (setCell (mkGame 5 5 0) 2 1 true none)
    2 2 true none) 2 3 true none

/-!
Object-identity model.  Python `Cell` objects are mutable and live on a
heap; the grid rows hold references to them.  To state that
`next_generation` never mutates any `Cell` object of the grid it reads,
we re-embed the generation step over an explicit store: `Heap.mem`
maps references to cell values and `Heap.fresh` is the next unused
reference.  `Cell.copy()` and `Cell(...)` allocate, attribute
assignments write through a reference.
-/

/-- Explicit store of cell objects. -/
structure Heap where
  mem : Nat → Cell
  fresh : Nat

/-- Allocate a new cell object holding value `c`; returns its
reference. -/
def Heap.alloc (h : Heap) (c : Cell) : Nat × Heap :=
  (h.fresh, { mem := Function.update h.mem h.fresh c, fresh := h.fresh + 1 })

/-- Overwrite the object behind reference `r` (an attribute
assignment, or `_mutate_cell`, acting on that object). -/
def Heap.write (h : Heap) (r : Nat) (c : Cell) : Heap :=
  { mem := Function.update h.mem r c, fresh := h.fresh }

/-- Game state with explicit object identity: the grid holds
references into the heap. -/
structure HGame where
  width : Nat
  height : Nat
  refs : List (List Nat)
  heap : Heap
  generation : Nat
  mutationRate : ℚ

/-- The reference stored at row `x`, column `y`. -/
def refAt (refs : List (List Nat)) (x y : Nat) : Nat :=
  (refs.getD x []).getD y 0

/-- Dereference the cell object at row `x`, column `y` through the
current heap. -/
def hCellAt (h : Heap) (refs : List (List Nat)) (x y : Nat) : Cell :=
  h.mem (refAt refs x y)

/-- Bounds check of the heap-model game. -/
def hInBounds (hg : HGame) (x y : Int) : Bool :=
  decide (0 ≤ x) && decide (x < (hg.height : Int)) &&
  decide (0 ≤ y) && decide (y < (hg.width : Int))

/-- `count_neighbors` in the heap model: reads the previous grid's
references through the current heap. -/
def hCountNeighbors (hg : HGame) (h : Heap) (x y : Nat) : Nat :=
  (deltas.filter (fun d =>
    let nx := (x : Int) + d.1
    let ny := (y : Int) + d.2
    hInBounds hg nx ny && (hCellAt h hg.refs nx.toNat ny.toNat).alive)).length

/-- `_get_alive_neighbors` in the heap model. -/
def hAliveNeighbors (hg : HGame) (h : Heap) (x y : Nat) : List Cell :=
  deltas.filterMap (fun d =>
    let nx := (x : Int) + d.1
    let ny := (y : Int) + d.2
    if hInBounds hg nx ny then
      let c := hCellAt h hg.refs nx.toNat ny.toNat
      if c.alive then some c else none
    else none)

/-- Allocate `n` fresh default cell objects (one row of the `new_grid`
comprehension). -/
def allocCells : Nat → Heap → List Nat × Heap
  | 0, h => ([], h)
  | Nat.succ n, h =>
    let rh := h.alloc defaultCell
    let rest := allocCells n rh.2
    (rh.1 :: rest.1, rest.2)

/-- Allocate the full `height × width` grid of fresh default cell
objects. -/
def allocGrid : Nat → Nat → Heap → List (List Nat) × Heap
  | 0, _, h => ([], h)
  | Nat.succ n, w, h =>
    let row := allocCells w h
    let rest := allocGrid n w row.2
    (row.1 :: rest.1, rest.2)

/-- Store reference `r` at row `x`, column `y` (the list-slot
assignment `new_grid[x][y] = ...`). -/
def setRef (refs : List (List Nat)) (x y : Nat) (r : Nat) :
    List (List Nat) :=
  modifyList refs x (fun row => modifyList row y (fun _ => r))

/-- The base-rule part of one `next_generation` loop iteration in the
heap model: survival allocates a copy of the (current value of the)
old cell, birth allocates the offspring or sets the fresh default
cell alive through its reference. -/
def hBaseStep (hg : HGame) (oc : CellOracle) (x y : Nat)
    (st : List (List Nat) × Heap) : List (List Nat) × Heap :=
  if (hCellAt st.2 hg.refs x y).alive then
    if hCountNeighbors hg st.2 x y = 2 ∨ hCountNeighbors hg st.2 x y = 3 then
      (setRef st.1 x y (st.2.alloc (hCellAt st.2 hg.refs x y)).1,
       (st.2.alloc (hCellAt st.2 hg.refs x y)).2)
    else st
  else
    if hCountNeighbors hg st.2 x y = 3 then
      if cellTruthy (selectParents oc.shuffle (hAliveNeighbors hg st.2 x y)).1
      then
        (setRef st.1 x y
          (st.2.alloc (createOffspring oc.symPick oc.colPick oc.namePick
            ((selectParents oc.shuffle (hAliveNeighbors hg st.2 x y)).1.getD
              defaultCell)
            (selectParents oc.shuffle (hAliveNeighbors hg st.2 x y)).2)).1,
         (st.2.alloc (createOffspring oc.symPick oc.colPick oc.namePick
            ((selectParents oc.shuffle (hAliveNeighbors hg st.2 x y)).1.getD
              defaultCell)
            (selectParents oc.shuffle (hAliveNeighbors hg st.2 x y)).2)).2)
      else
        (st.1, st.2.write (refAt st.1 x y)
          { st.2.mem (refAt st.1 x y) with alive := true })
    else st

/-- The mutation part of one loop iteration in the heap model: reads
and writes the object behind `new_grid[x][y]` in place. -/
def hMutStep (hg : HGame) (oc : CellOracle) (x y : Nat)
    (st : List (List Nat) × Heap) : List (List Nat) × Heap :=
  if 0 < hg.mutationRate then
    if oc.mutTrial then
      if (st.2.mem (refAt st.1 x y)).alive then
        if oc.killTrial then
          (st.1, st.2.write (refAt st.1 x y)
            { st.2.mem (refAt st.1 x y) with alive := false })
        else
          (st.1, st.2.write (refAt st.1 x y)
            (mutateCell oc.colTrial oc.colIdx oc.symTrial oc.symIdx
              (st.2.mem (refAt st.1 x y))))
      else
        if oc.birthTrial then
          (st.1, st.2.write (refAt st.1 x y)
            (mutateCell oc.colTrial oc.colIdx oc.symTrial oc.symIdx
              { st.2.mem (refAt st.1 x y) with alive := true }))
        else st
    else st
  else st

/-- One full `next_generation` loop iteration in the heap model. -/
def hProcessCell (hg : HGame) (oc : CellOracle) (x y : Nat)
    (st : List (List Nat) × Heap) : List (List Nat) × Heap :=
  hMutStep hg oc x y (hBaseStep hg oc x y st)

/-- Row-major traversal order of the double loop. -/
def positions (height width : Nat) : List (Nat × Nat) :=
  (List.range height).flatMap (fun x => (List.range width).map (fun y => (x, y)))

/-- `next_generation` in the heap model: allocate the fresh
`new_grid`, run the loop, swap the array and bump the counter. -/
def hNextGeneration (o : Oracle) (hg : HGame) : HGame :=
  let init := allocGrid hg.height hg.width hg.heap
  let fin := (positions hg.height hg.width).foldl
    (fun st p => hProcessCell hg (o p.1 p.2) p.1 p.2 st) init
  { hg with refs := fin.1, heap := fin.2, generation := hg.generation + 1 }

/-- The heap at `h1` agrees with `h0` on every object allocated before
`h0.fresh`, and allocates forward only. -/
def HeapExtends (h0 h1 : Heap) : Prop :=
  h0.fresh ≤ h1.fresh ∧ ∀ i, i < h0.fresh → h1.mem i = h0.mem i

/-- Loop-state invariant: `new_grid` has the right shape, its
references are all objects allocated during this step, and no object
of the previous grid has been touched. -/
def GoodSt (hg : HGame) (st : List (List Nat) × Heap) : Prop :=
  st.1.length = hg.height ∧ (∀ row ∈ st.1, row.length = hg.width) ∧
  HeapExtends hg.heap st.2 ∧
  (∀ r ∈ st.1.flatten, hg.heap.fresh ≤ r ∧ r < st.2.fresh)

/-- Fixture: a concrete 2×2 heap-model game (all four objects alive,
object 0 red), references 0..3, next fresh reference 4. -/
def hBlockGame : HGame :=
  { width := 2, height := 2, refs := [[0, 1], [2, 3]],
    heap := { mem := fun r => if r = 0 then redCell
        else { defaultCell with alive := true }, fresh := 4 },
    generation := 0, mutationRate := 1 }

/-!
Theorems.
-/

theorem getD_map_range {α : Type} (f : Nat → α) (n i : Nat) (d : α) (h : i < n) :
    ((List.range n).map f).getD i d = f i := by
  rw [List.getD_eq_getElem?_getD, List.getElem?_map, List.getElem?_range h]
  rfl

theorem getD_of_length_le {α : Type} (l : List α) (i : Nat) (d : α)
    (h : l.length ≤ i) : l.getD i d = d := by
  rw [List.getD_eq_getElem?_getD, List.getElem?_eq_none h]
  rfl

theorem cellAt_nextGeneration (o : Oracle) (g : Game) (x y : Nat)
    (hx : x < g.height) (hy : y < g.width) :
    cellAt (nextGeneration o g).grid x y =
      mutatePass g (o x y) (baseCell g (o x y) x y) := by
  show cellAt ((List.range g.height).map _) x y = _
  unfold cellAt
  rw [getD_map_range _ _ _ _ hx, getD_map_range _ _ _ _ hy]

theorem mutatePass_rate_zero (g : Game) (oc : CellOracle) (c : Cell)
    (h : g.mutationRate = 0) : mutatePass g oc c = c := by
  unfold mutatePass
  rw [h]
  simp

/-- C1: `_are_compatible(A, B)` is true exactly when both cells have a
non-empty name, or their glyphs differ, or their colors differ; it is
false exactly when some name is empty and glyph and color both
coincide. -/
theorem areCompatible_iff (c1 c2 : Cell) :
    (areCompatible c1 c2 = true ↔
      ((c1.name ≠ "" ∧ c2.name ≠ "") ∨ c1.symbol ≠ c2.symbol ∨
        c1.color ≠ c2.color)) ∧
    (areCompatible c1 c2 = false ↔
      ((c1.name = "" ∨ c2.name = "") ∧ c1.symbol = c2.symbol ∧
        c1.color = c2.color)) := by
  unfold areCompatible
  by_cases h1 : c1.name = "" <;> by_cases h2 : c2.name = "" <;>
    by_cases h3 : c1.symbol = c2.symbol <;> by_cases h4 : c1.color = c2.color <;>
    simp [h1, h2, h3, h4]

/-- C3: with mutation rate 0, an alive cell with exactly 2 or 3 alive
neighbors survives one `next_generation` as an exact copy: the cell at
its position afterwards equals the original cell, still alive. -/
theorem survivor_unchanged (o : Oracle) (g : Game) (x y : Nat)
    (hrate : g.mutationRate = 0) (hx : x < g.height) (hy : y < g.width)
    (halive : (cellAt g.grid x y).alive = true)
    (hn : countNeighbors g x y = 2 ∨ countNeighbors g x y = 3) :
    cellAt (nextGeneration o g).grid x y = cellAt g.grid x y ∧
    (cellAt (nextGeneration o g).grid x y).alive = true := by
  have hbase : baseCell g (o x y) x y = cellAt g.grid x y := by
    unfold baseCell
    simp [halive, hn]
  rw [cellAt_nextGeneration o g x y hx hy, mutatePass_rate_zero _ _ _ hrate,
    hbase]
  exact ⟨rfl, halive⟩

/-- C3 witness: the top-left cell of a 2×2 block survives unchanged. -/
theorem survivor_unchanged_witness :
    cellAt (nextGeneration quietTape blockGame).grid 0 0 =
      cellAt blockGame.grid 0 0 ∧
    (cellAt (nextGeneration quietTape blockGame).grid 0 0).alive = true :=
  survivor_unchanged quietTape blockGame 0 0 (by decide) (by decide)
    (by decide) (by decide) (by decide)

/-- C2 counterexample: on a 2×2 block whose top-left cell is red, with
mutation rate 1 and a tape whose mutation and kill trials fire, the
killed cell is dead but keeps its red color — its traits are not reset
to the defaults. -/
theorem mutation_kill_cex :
    (cellAt (nextGeneration killTape redBlockGame).grid 0 0).alive = false ∧
    (cellAt (nextGeneration killTape redBlockGame).grid 0 0).color = "red" ∧
    defaultCell.color = "white" := by decide

/-- C2 (amended): when the mutation trial and the nested kill trial
both succeed on a cell alive after the base rule, the resulting cell
is set dead and its traits (name, color, glyph) are left exactly as
they were — they are not reset to the default values. -/
theorem mutation_kill_sets_dead_keeps_traits (o : Oracle) (g : Game)
    (x y : Nat) (hx : x < g.height) (hy : y < g.width)
    (hrate : 0 < g.mutationRate) (hmut : (o x y).mutTrial = true)
    (hkill : (o x y).killTrial = true)
    (halive : (baseCell g (o x y) x y).alive = true) :
    cellAt (nextGeneration o g).grid x y =
      { baseCell g (o x y) x y with alive := false } := by
  rw [cellAt_nextGeneration o g x y hx hy]
  unfold mutatePass
  rw [if_pos hrate, hmut, halive, hkill]
  simp

/-- C2 witness: the amended statement applied to the red block. -/
theorem mutation_kill_witness :
    cellAt (nextGeneration killTape redBlockGame).grid 0 0 =
      { baseCell redBlockGame (killTape 0 0) 0 0 with alive := false } :=
  mutation_kill_sets_dead_keeps_traits killTape redBlockGame 0 0
    (by decide) (by decide) (by decide) rfl rfl (by decide)

theorem findCompatiblePair_mem {l : List Cell} {p : Cell × Cell}
    (h : findCompatiblePair l = some p) : p.1 ∈ l ∧ p.2 ∈ l := by
  induction l with
  | nil => simp [findCompatiblePair] at h
  | cons c rest ih =>
    unfold findCompatiblePair at h
    cases hf : rest.find? (fun d => areCompatible c d) with
    | some d =>
      rw [hf] at h
      have hp : p = (c, d) := by
        have := h
        injection this with h1
        exact h1.symm
      subst hp
      exact ⟨List.mem_cons_self c rest,
        List.mem_cons_of_mem c (List.mem_of_find?_eq_some hf)⟩
    | none =>
      rw [hf] at h
      have := ih h
      exact ⟨List.mem_cons_of_mem c this.1, List.mem_cons_of_mem c this.2⟩

theorem selectParents_pair {sh : List Cell → List Cell} {ns : List Cell}
    (hperm : List.Perm (sh ns) ns) (hlen : 2 ≤ ns.length) :
    ∃ p1 p2, selectParents sh ns = (some p1, some p2) ∧ p1 ∈ ns ∧ p2 ∈ ns := by
  unfold selectParents
  rw [if_neg (by omega)]
  cases hf : findCompatiblePair (sh ns) with
  | some p =>
    refine ⟨p.1, p.2, rfl, ?_, ?_⟩
    · exact hperm.mem_iff.mp (findCompatiblePair_mem hf).1
    · exact hperm.mem_iff.mp (findCompatiblePair_mem hf).2
  | none =>
    have hl : (sh ns).length = ns.length := hperm.length_eq
    have h0 : 0 < (sh ns).length := by omega
    have h1 : 1 < (sh ns).length := by omega
    refine ⟨(sh ns)[0], (sh ns)[1], ?_, ?_, ?_⟩
    · show ((sh ns)[0]?, (sh ns)[1]?) = _
      rw [List.getElem?_eq_getElem h0, List.getElem?_eq_getElem h1]
    · exact hperm.mem_iff.mp (List.getElem_mem h0)
    · exact hperm.mem_iff.mp (List.getElem_mem h1)

theorem getAliveNeighbors_alive (g : Game) (x y : Nat) :
    ∀ c ∈ getAliveNeighbors g x y, c.alive = true := by
  intro c hc
  unfold getAliveNeighbors at hc
  rw [List.mem_filterMap] at hc
  obtain ⟨d, _, hd⟩ := hc
  simp only [] at hd
  split at hd
  · split at hd
    · injection hd with h1
      subst h1
      assumption
    · exact absurd hd (by simp)
  · exact absurd hd (by simp)

theorem length_filterMap_eq_length_filter (g : Game) (x y : Nat)
    (l : List (Int × Int)) :
    (l.filterMap (fun d =>
      let nx := (x : Int) + d.1
      let ny := (y : Int) + d.2
      if inBounds g nx ny then
        let c := cellAt g.grid nx.toNat ny.toNat
        if c.alive then some c else none
      else none)).length =
    (l.filter (fun d =>
      let nx := (x : Int) + d.1
      let ny := (y : Int) + d.2
      inBounds g nx ny && (cellAt g.grid nx.toNat ny.toNat).alive)).length := by
  induction l with
  | nil => rfl
  | cons d rest ih =>
    rw [List.filterMap_cons, List.filter_cons]
    by_cases hb : inBounds g ((x : Int) + d.1) ((y : Int) + d.2) <;>
      by_cases ha : (cellAt g.grid ((x : Int) + d.1).toNat
        ((y : Int) + d.2).toNat).alive <;>
      simp [hb, ha, ih]

theorem countNeighbors_eq_length (g : Game) (x y : Nat) :
    countNeighbors g x y = (getAliveNeighbors g x y).length := by
  unfold countNeighbors getAliveNeighbors
  exact (length_filterMap_eq_length_filter g x y deltas).symm

theorem createOffspring_alive (a b c : Bool) (p1 : Cell) (p2 : Option Cell) :
    (createOffspring a b c p1 p2).alive = true := by
  cases p2 <;> rfl

theorem createOffspring_symbol_mem (a b c : Bool) (p1 p2 : Cell) :
    (createOffspring a b c p1 (some p2)).symbol = p1.symbol ∨
    (createOffspring a b c p1 (some p2)).symbol = p2.symbol := by
  unfold createOffspring
  cases a <;> simp

theorem createOffspring_color_mem (a b c : Bool) (p1 p2 : Cell) :
    (createOffspring a b c p1 (some p2)).color = p1.color ∨
    (createOffspring a b c p1 (some p2)).color = p2.color := by
  unfold createOffspring
  cases b <;> simp

theorem baseCell_birth (g : Game) (oc : CellOracle) (x y : Nat)
    (hdead : (cellAt g.grid x y).alive = false)
    (hn : countNeighbors g x y = 3)
    (hperm : List.Perm (oc.shuffle (getAliveNeighbors g x y))
      (getAliveNeighbors g x y)) :
    ∃ p1 p2,
      selectParents oc.shuffle (getAliveNeighbors g x y) = (some p1, some p2) ∧
      p1 ∈ getAliveNeighbors g x y ∧ p2 ∈ getAliveNeighbors g x y ∧
      baseCell g oc x y =
        createOffspring oc.symPick oc.colPick oc.namePick p1 (some p2) := by
  have hlen : 2 ≤ (getAliveNeighbors g x y).length := by
    rw [← countNeighbors_eq_length, hn]
    omega
  obtain ⟨p1, p2, hsel, hm1, hm2⟩ := selectParents_pair hperm hlen
  have halive1 : p1.alive = true := getAliveNeighbors_alive g x y p1 hm1
  refine ⟨p1, p2, hsel, hm1, hm2, ?_⟩
  unfold baseCell
  rw [hdead, hsel]
  simp [hn, cellTruthy, halive1]

/-- C4: with mutation rate 0, a dead cell with exactly 3 alive
neighbors is alive after one `next_generation`, and its glyph and its
color each equal the glyph or color of one of those alive neighbors. -/
theorem birth_inherits_from_neighbors (o : Oracle) (g : Game) (x y : Nat)
    (hrate : g.mutationRate = 0) (hx : x < g.height) (hy : y < g.width)
    (hdead : (cellAt g.grid x y).alive = false)
    (hn : countNeighbors g x y = 3)
    (hperm : List.Perm ((o x y).shuffle (getAliveNeighbors g x y))
      (getAliveNeighbors g x y)) :
    (cellAt (nextGeneration o g).grid x y).alive = true ∧
    (∃ c ∈ getAliveNeighbors g x y,
      (cellAt (nextGeneration o g).grid x y).symbol = c.symbol) ∧
    (∃ c ∈ getAliveNeighbors g x y,
      (cellAt (nextGeneration o g).grid x y).color = c.color) := by
  obtain ⟨p1, p2, hsel, hm1, hm2, hbase⟩ :=
    baseCell_birth g (o x y) x y hdead hn hperm
  rw [cellAt_nextGeneration o g x y hx hy, mutatePass_rate_zero _ _ _ hrate,
    hbase]
  refine ⟨createOffspring_alive _ _ _ _ _, ?_, ?_⟩
  · cases createOffspring_symbol_mem (o x y).symPick (o x y).colPick
      (o x y).namePick p1 p2 with
    | inl h => exact ⟨p1, hm1, h⟩
    | inr h => exact ⟨p2, hm2, h⟩
  · cases createOffspring_color_mem (o x y).symPick (o x y).colPick
      (o x y).namePick p1 p2 with
    | inl h => exact ⟨p1, hm1, h⟩
    | inr h => exact ⟨p2, hm2, h⟩

/-- C4 witness: the cell below a row of three alive cells on a 3×3
grid is born with neighbor-drawn traits. -/
theorem birth_inherits_witness :
    (cellAt (nextGeneration quietTape rowGame).grid 1 1).alive = true ∧
    (∃ c ∈ getAliveNeighbors rowGame 1 1,
      (cellAt (nextGeneration quietTape rowGame).grid 1 1).symbol = c.symbol) ∧
    (∃ c ∈ getAliveNeighbors rowGame 1 1,
      (cellAt (nextGeneration quietTape rowGame).grid 1 1).color = c.color) :=
  birth_inherits_from_neighbors quietTape rowGame 1 1 (by decide) (by decide)
    (by decide) (by decide) (by decide) (List.Perm.refl _)

/-- C7: whenever `next_generation` takes the birth path — a dead cell
with exactly 3 alive neighbors — the alive-neighbor list has length
exactly 3, `_select_parents` returns two non-`None` parents, the first
of which is alive so the `if parent1` guard succeeds, and the
default-traits fallback branch is not taken: the new cell is exactly
the synthesized offspring. -/
theorem birth_path_no_fallback (g : Game) (oc : CellOracle) (x y : Nat)
    (hdead : (cellAt g.grid x y).alive = false)
    (hn : countNeighbors g x y = 3)
    (hperm : List.Perm (oc.shuffle (getAliveNeighbors g x y))
      (getAliveNeighbors g x y)) :
    (getAliveNeighbors g x y).length = 3 ∧
    ∃ p1 p2,
      selectParents oc.shuffle (getAliveNeighbors g x y) = (some p1, some p2) ∧
      p1.alive = true ∧
      baseCell g oc x y =
        createOffspring oc.symPick oc.colPick oc.namePick p1 (some p2) := by
  obtain ⟨p1, p2, hsel, hm1, _, hbase⟩ := baseCell_birth g oc x y hdead hn hperm
  refine ⟨by rw [← countNeighbors_eq_length, hn], p1, p2, hsel,
    getAliveNeighbors_alive g x y p1 hm1, hbase⟩

/-- C7 witness: the birth path below a row of three alive cells. -/
theorem birth_path_no_fallback_witness :
    (getAliveNeighbors rowGame 1 1).length = 3 ∧
    ∃ p1 p2,
      selectParents quietOracle.shuffle (getAliveNeighbors rowGame 1 1) =
        (some p1, some p2) ∧
      p1.alive = true ∧
      baseCell rowGame quietOracle 1 1 =
        createOffspring quietOracle.symPick quietOracle.colPick
          quietOracle.namePick p1 (some p2) :=
  birth_path_no_fallback rowGame quietOracle 1 1 (by decide) (by decide)
    (List.Perm.refl _)

theorem cellAt_freshGrid (h w x y : Nat) :
    cellAt (freshGrid h w) x y = defaultCell := by
  unfold freshGrid cellAt
  by_cases hx : x < h
  · rw [getD_map_range _ _ _ _ hx]
    by_cases hy : y < w
    · rw [getD_map_range _ _ _ _ hy]
    · exact getD_of_length_le _ _ _
        (by rw [List.length_map, List.length_range]; omega)
  · have hrow : ((List.range h).map
        (fun _ => (List.range w).map (fun _ => defaultCell))).getD x
          ([] : List Cell) = ([] : List Cell) :=
      getD_of_length_le _ _ _
        (by rw [List.length_map, List.length_range]; omega)
    rw [hrow]
    rfl

theorem patternCoords_unknown (name : String)
    (h : name ∉ ["glider", "blinker", "toad", "beacon", "pulsar"]) :
    patternCoords name = none := by
  simp only [List.mem_cons, List.not_mem_nil, or_false, not_or] at h
  obtain ⟨h1, h2, h3, h4, h5⟩ := h
  unfold patternCoords
  rw [if_neg h1, if_neg h2, if_neg h3, if_neg h4, if_neg h5]

/-- C8: `load_pattern` with an unknown name returns false and leaves
the grid fully cleared — every cell default-dead and generation 0 —
whatever the prior state was, because the grid is cleared before the
name lookup. -/
theorem load_unknown_clears (g : Game) (name : String)
    (h : name ∉ ["glider", "blinker", "toad", "beacon", "pulsar"]) :
    (loadPattern g name).1 = false ∧
    (loadPattern g name).2.generation = 0 ∧
    ∀ x y, cellAt (loadPattern g name).2.grid x y = defaultCell := by
  unfold loadPattern
  rw [patternCoords_unknown name h]
  exact ⟨rfl, rfl, fun x y => cellAt_freshGrid g.height g.width x y⟩

/-- C8 witness: loading the name "diamond" on a seeded 2×2 grid. -/
theorem load_unknown_witness :
    (loadPattern seededGame "diamond").1 = false ∧
    (loadPattern seededGame "diamond").2.generation = 0 ∧
    cellAt (loadPattern seededGame "diamond").2.grid 0 0 = defaultCell :=
  ⟨(load_unknown_clears seededGame "diamond" (by decide)).1,
   (load_unknown_clears seededGame "diamond" (by decide)).2.1,
   (load_unknown_clears seededGame "diamond" (by decide)).2.2 0 0⟩

theorem setCell_dims (g : Game) (x y : Int) (a : Bool) (ct : Option Cell) :
    (setCell g x y a ct).width = g.width ∧
    (setCell g x y a ct).height = g.height := by
  unfold setCell
  by_cases hb : inBounds g x y
  · rw [if_pos hb]
    cases ct <;> exact ⟨rfl, rfl⟩
  · rw [if_neg hb]
    exact ⟨rfl, rfl⟩

theorem foldl_setCell_dims (coords : List (Int × Int)) (g : Game) :
    (coords.foldl (fun acc p => setCell acc p.1 p.2 true none) g).width =
      g.width ∧
    (coords.foldl (fun acc p => setCell acc p.1 p.2 true none) g).height =
      g.height := by
  induction coords generalizing g with
  | nil => exact ⟨rfl, rfl⟩
  | cons p rest ih =>
    rw [List.foldl_cons]
    have h1 := ih (setCell g p.1 p.2 true none)
    have h2 := setCell_dims g p.1 p.2 true none
    exact ⟨h1.1.trans h2.1, h1.2.trans h2.2⟩

theorem applyOp_dims (g : Game) (op : Op) :
    (applyOp g op).width = g.width ∧ (applyOp g op).height = g.height := by
  cases op with
  | set x y alive ct => exact setCell_dims g x y alive ct
  | step o => exact ⟨rfl, rfl⟩
  | clear => exact ⟨rfl, rfl⟩
  | load name =>
    show (loadPattern g name).2.width = g.width ∧
      (loadPattern g name).2.height = g.height
    unfold loadPattern
    cases hp : patternCoords name with
    | some coords => exact foldl_setCell_dims coords (clearGrid g)
    | none => exact ⟨rfl, rfl⟩
  | addType name color symbol => exact ⟨rfl, rfl⟩

theorem runOps_dims (ops : List Op) (g : Game) :
    (runOps g ops).width = g.width ∧ (runOps g ops).height = g.height := by
  induction ops generalizing g with
  | nil => exact ⟨rfl, rfl⟩
  | cons op rest ih =>
    show ((op :: rest).foldl applyOp g).width = g.width ∧
      ((op :: rest).foldl applyOp g).height = g.height
    rw [List.foldl_cons]
    have h1 := ih (applyOp g op)
    have h2 := applyOp_dims g op
    exact ⟨h1.1.trans h2.1, h1.2.trans h2.2⟩

/-- C9: across every sequence of operations, width and height never
change after construction; `generation` starts at 0; every completed
`next_generation` increments `generation` by exactly 1; and
`clear_grid` resets `generation` to 0 with every cell reset to the
default dead cell. -/
theorem lifetime_invariants :
    (∀ (w h : Nat) (r : ℚ) (ops : List Op),
      (runOps (mkGame w h r) ops).width = w ∧
      (runOps (mkGame w h r) ops).height = h) ∧
    (∀ (w h : Nat) (r : ℚ), (mkGame w h r).generation = 0) ∧
    (∀ (o : Oracle) (g : Game),
      (nextGeneration o g).generation = g.generation + 1) ∧
    (∀ g : Game, (clearGrid g).generation = 0 ∧
      ∀ x y : Nat, cellAt (clearGrid g).grid x y = defaultCell) := by
  refine ⟨?_, ?_, ?_, ?_⟩
  · intro w h r ops
    exact runOps_dims ops (mkGame w h r)
  · intro w h r
    rfl
  · intro o g
    rfl
  · intro g
    exact ⟨rfl, fun x y => cellAt_freshGrid g.height g.width x y⟩

theorem inBounds_congr (g g1 : Game) (hw : g.width = g1.width)
    (hh : g.height = g1.height) (x y : Int) :
    inBounds g x y = inBounds g1 x y := by
  unfold inBounds
  rw [hw, hh]

theorem countNeighbors_congr {g g1 : Game} (h : SameAlive g g1) (x y : Nat) :
    countNeighbors g x y = countNeighbors g1 x y := by
  unfold countNeighbors
  congr 1
  apply List.filter_congr
  intro d _
  have hb := inBounds_congr g g1 h.1 h.2.1 ((x : Int) + d.1) ((y : Int) + d.2)
  have ha := h.2.2 ((x : Int) + d.1).toNat ((y : Int) + d.2).toNat
  simp only [aliveAt] at ha
  show (inBounds g ((x : Int) + d.1) ((y : Int) + d.2) &&
      (cellAt g.grid ((x : Int) + d.1).toNat ((y : Int) + d.2).toNat).alive) =
    (inBounds g1 ((x : Int) + d.1) ((y : Int) + d.2) &&
      (cellAt g1.grid ((x : Int) + d.1).toNat ((y : Int) + d.2).toNat).alive)
  rw [hb, ha]

theorem baseCell_alive_eq (g : Game) (oc : CellOracle) (x y : Nat) :
    (baseCell g oc x y).alive =
      (if aliveAt g x y
       then decide (countNeighbors g x y = 2 ∨ countNeighbors g x y = 3)
       else decide (countNeighbors g x y = 3)) := by
  by_cases ha : (cellAt g.grid x y).alive <;>
    simp [baseCell, aliveAt, ha, createOffspring_alive, defaultCell,
      apply_ite (fun c : Cell => c.alive)]

theorem cellAt_nextGeneration_out (o : Oracle) (g : Game) (x y : Nat)
    (h : ¬ (x < g.height ∧ y < g.width)) :
    cellAt (nextGeneration o g).grid x y = defaultCell := by
  show cellAt ((List.range g.height).map _) x y = _
  unfold cellAt
  by_cases hx : x < g.height
  · rw [getD_map_range _ _ _ _ hx]
    exact getD_of_length_le _ _ _
      (by rw [List.length_map, List.length_range]; omega)
  · have hrow := getD_of_length_le ((List.range g.height).map
      (fun x => (List.range g.width).map (fun y =>
        mutatePass g (o x y) (baseCell g (o x y) x y)))) x ([] : List Cell)
      (by rw [List.length_map, List.length_range]; omega)
    rw [hrow]
    rfl

theorem aliveAt_nextGeneration (o : Oracle) (g : Game)
    (hrate : g.mutationRate = 0) (x y : Nat) :
    aliveAt (nextGeneration o g) x y =
      (decide (x < g.height) && decide (y < g.width) &&
       (if aliveAt g x y
        then decide (countNeighbors g x y = 2 ∨ countNeighbors g x y = 3)
        else decide (countNeighbors g x y = 3))) := by
  by_cases hx : x < g.height
  · by_cases hy : y < g.width
    · unfold aliveAt
      rw [cellAt_nextGeneration o g x y hx hy,
        mutatePass_rate_zero _ _ _ hrate, baseCell_alive_eq]
      simp [hx, hy, aliveAt]
    · unfold aliveAt
      rw [cellAt_nextGeneration_out o g x y (by omega)]
      simp [hy, defaultCell]
  · unfold aliveAt
    rw [cellAt_nextGeneration_out o g x y (by omega)]
    simp [hx, defaultCell]

theorem sameAlive_nextGeneration {g g1 : Game} (o o1 : Oracle)
    (hr : g.mutationRate = 0) (hr1 : g1.mutationRate = 0)
    (h : SameAlive g g1) :
    SameAlive (nextGeneration o g) (nextGeneration o1 g1) := by
  refine ⟨h.1, h.2.1, fun x y => ?_⟩
  rw [aliveAt_nextGeneration o g hr x y, aliveAt_nextGeneration o1 g1 hr1 x y,
    countNeighbors_congr h x y, h.1, h.2.1, h.2.2 x y]

/-- C6: on the 5×5 grid seeded with the horizontal blinker at
(2,1), (2,2), (2,3) and mutation rate 0, one `next_generation` leaves
exactly (1,2), (2,2), (3,2) alive, and a second `next_generation`
restores exactly (2,1), (2,2), (2,3) — whatever randomness the two
steps draw. -/
theorem blinker_period_two (o o2 : Oracle) :
    (∀ x y : Fin 5, aliveAt (nextGeneration o blinkerGame) x y =
      decide ((x.val, y.val) ∈ [(1, 2), (2, 2), (3, 2)])) ∧
    (∀ x y : Fin 5,
      aliveAt (nextGeneration o2 (nextGeneration o blinkerGame)) x y =
        decide ((x.val, y.val) ∈ [(2, 1), (2, 2), (2, 3)])) := by
  have h1 : SameAlive (nextGeneration o blinkerGame)
      (nextGeneration quietTape blinkerGame) :=
    sameAlive_nextGeneration o quietTape rfl rfl ⟨rfl, rfl, fun _ _ => rfl⟩
  have h2 : SameAlive (nextGeneration o2 (nextGeneration o blinkerGame))
      (nextGeneration quietTape (nextGeneration quietTape blinkerGame)) :=
    sameAlive_nextGeneration o2 quietTape rfl rfl h1
  have hq1 : ∀ x y : Fin 5,
      aliveAt (nextGeneration quietTape blinkerGame) x y =
        decide ((x.val, y.val) ∈ [(1, 2), (2, 2), (3, 2)]) := by decide
  have hq2 : ∀ x y : Fin 5,
      aliveAt (nextGeneration quietTape
        (nextGeneration quietTape blinkerGame)) x y =
        decide ((x.val, y.val) ∈ [(2, 1), (2, 2), (2, 3)]) := by decide
  exact ⟨fun x y => (h1.2.2 x y).trans (hq1 x y),
    fun x y => (h2.2.2 x y).trans (hq2 x y)⟩

theorem length_modifyList {α : Type} (l : List α) (i : Nat) (f : α → α) :
    (modifyList l i f).length = l.length := by
  induction l generalizing i with
  | nil => rfl
  | cons a t ih =>
    cases i with
    | zero => rfl
    | succ n => simp [modifyList, ih]

theorem mem_modifyList {α : Type} {l : List α} {i : Nat} {f : α → α} {x : α}
    (hx : x ∈ modifyList l i f) : x ∈ l ∨ ∃ b, b ∈ l ∧ x = f b := by
  induction l generalizing i with
  | nil => simp [modifyList] at hx
  | cons a t ih =>
    cases i with
    | zero =>
      rcases List.mem_cons.mp hx with h | h
      · exact Or.inr ⟨a, List.mem_cons_self a t, h⟩
      · exact Or.inl (List.mem_cons_of_mem a h)
    | succ n =>
      rcases List.mem_cons.mp hx with h | h
      · exact Or.inl (by simp [h])
      · rcases ih h with h1 | ⟨b, hb, he⟩
        · exact Or.inl (List.mem_cons_of_mem a h1)
        · exact Or.inr ⟨b, List.mem_cons_of_mem a hb, he⟩

theorem getD_cons_succ {α : Type} (a : α) (t : List α) (m : Nat) (d : α) :
    (a :: t).getD (m + 1) d = t.getD m d := by
  rfl

theorem getD_modifyList_ne {α : Type} (l : List α) (i x : Nat) (f : α → α)
    (d : α) (h : x ≠ i) : (modifyList l i f).getD x d = l.getD x d := by
  induction l generalizing i x with
  | nil => rfl
  | cons a t ih =>
    cases i with
    | zero =>
      cases x with
      | zero => omega
      | succ m => rfl
    | succ n =>
      cases x with
      | zero => rfl
      | succ m =>
        show (a :: modifyList t n f).getD (m + 1) d = (a :: t).getD (m + 1) d
        rw [getD_cons_succ, getD_cons_succ]
        exact ih n m (by omega)

theorem getD_modifyList_eq {α : Type} (l : List α) (i : Nat) (f : α → α)
    (d : α) (h : i < l.length) :
    (modifyList l i f).getD i d = f (l.getD i d) := by
  induction l generalizing i with
  | nil => simp at h
  | cons a t ih =>
    cases i with
    | zero => rfl
    | succ n =>
      show (a :: modifyList t n f).getD (n + 1) d = f ((a :: t).getD (n + 1) d)
      rw [getD_cons_succ, getD_cons_succ]
      exact ih n (by simpa using h)

theorem getD_mem {α : Type} (l : List α) (i : Nat) (d : α)
    (h : i < l.length) : l.getD i d ∈ l := by
  rw [List.getD_eq_getElem?_getD, List.getElem?_eq_getElem h]
  exact List.getElem_mem h

theorem freshGrid_WF (g : Game) : WFGrid (clearGrid g) := by
  constructor
  · show ((List.range g.height).map _).length = g.height
    rw [List.length_map, List.length_range]
  · intro row hrow
    show row.length = g.width
    rcases List.mem_map.mp hrow with ⟨x, _, hx⟩
    rw [← hx, List.length_map, List.length_range]

theorem mkGame_WF (w h : Nat) (r : ℚ) : WFGrid (mkGame w h r) :=
  freshGrid_WF (mkGame w h r)

theorem setCell_WF (g : Game) (hwf : WFGrid g) (a b : Int) (al : Bool)
    (ct : Option Cell) : WFGrid (setCell g a b al ct) := by
  unfold setCell
  by_cases hb : inBounds g a b
  · rw [if_pos hb]
    have hgrid : ∀ f : Cell → Cell,
        WFGrid { g with grid := modifyGrid g.grid a.toNat b.toNat f } := by
      intro f
      constructor
      · show (modifyList g.grid a.toNat _).length = g.height
        rw [length_modifyList]
        exact hwf.1
      · intro row hrow
        rcases mem_modifyList hrow with h | ⟨r0, hr0, he⟩
        · exact hwf.2 row h
        · show row.length = g.width
          rw [he, length_modifyList]
          exact hwf.2 r0 hr0
    cases ct with
    | some c => exact hgrid (fun _ => c)
    | none => exact hgrid (fun c => { c with alive := al })
  · rw [if_neg hb]
    exact hwf

theorem inBounds_setCell (g : Game) (a b : Int) (al : Bool)
    (ct : Option Cell) (x y : Int) :
    inBounds (setCell g a b al ct) x y = inBounds g x y :=
  inBounds_congr _ _ (setCell_dims g a b al ct).1 (setCell_dims g a b al ct).2
    x y

theorem aliveAt_setCell (g : Game) (hwf : WFGrid g) (a b : Int) (x y : Nat) :
    aliveAt (setCell g a b true none) x y =
      ((inBounds g a b && decide (a = (x : Int)) && decide (b = (y : Int))) ||
        aliveAt g x y) := by
  unfold setCell
  by_cases hb : inBounds g a b
  · rw [if_pos hb]
    have hbp : 0 ≤ a ∧ a < (g.height : Int) ∧ 0 ≤ b ∧ b < (g.width : Int) := by
      unfold inBounds at hb
      simp only [Bool.and_eq_true, decide_eq_true_eq] at hb
      tauto
    unfold aliveAt cellAt modifyGrid
    by_cases hx : x = a.toNat
    · subst hx
      rw [getD_modifyList_eq _ _ _ _ (by rw [hwf.1]; omega)]
      by_cases hy : y = b.toNat
      · subst hy
        rw [getD_modifyList_eq]
        · have e1 : decide (a = ((a.toNat : Nat) : Int)) = true :=
            decide_eq_true (by omega)
          have e2 : decide (b = ((b.toNat : Nat) : Int)) = true :=
            decide_eq_true (by omega)
          rw [hb, e1, e2]
          simp
        · have hmem : g.grid.getD a.toNat [] ∈ g.grid :=
            getD_mem _ _ _ (by rw [hwf.1]; omega)
          rw [hwf.2 _ hmem]
          omega
      · rw [getD_modifyList_ne _ _ _ _ _ hy]
        have : decide (b = (y : Int)) = false := by
          simp only [decide_eq_false_iff_not]
          omega
        rw [hb, this]
        simp
    · rw [getD_modifyList_ne _ _ _ _ _ hx]
      have : decide (a = (x : Int)) = false := by
        simp only [decide_eq_false_iff_not]
        omega
      rw [hb, this]
      simp
  · rw [if_neg hb]
    rw [Bool.eq_false_iff.mpr hb]
    simp

theorem aliveCount_setCell_new (g : Game) (hwf : WFGrid g) (a b : Int)
    (hb : inBounds g a b = true)
    (hdead : aliveAt g a.toNat b.toNat = false) :
    aliveCount (setCell g a b true none) = aliveCount g + 1 := by
  have hbp : 0 ≤ a ∧ a < (g.height : Int) ∧ 0 ≤ b ∧ b < (g.width : Int) := by
    unfold inBounds at hb
    simp only [Bool.and_eq_true, decide_eq_true_eq] at hb
    tauto
  have hpt : ∀ x y : Nat, aliveAt (setCell g a b true none) x y =
      ((decide (x = a.toNat) && decide (y = b.toNat)) || aliveAt g x y) := by
    intro x y
    rw [aliveAt_setCell g hwf a b x y, hb]
    have h1 : decide (a = (x : Int)) = decide (x = a.toNat) := by
      rw [decide_eq_decide]
      omega
    have h2 : decide (b = (y : Int)) = decide (y = b.toNat) := by
      rw [decide_eq_decide]
      omega
    rw [h1, h2]
    simp
  unfold aliveCount
  rw [(setCell_dims g a b true none).1, (setCell_dims g a b true none).2]
  have hrow : ∀ x ∈ Finset.range g.height,
      ((Finset.range g.width).filter
        (fun y => aliveAt (setCell g a b true none) x y = true)).card =
      ((Finset.range g.width).filter (fun y => aliveAt g x y = true)).card +
        (if x = a.toNat then 1 else 0) := by
    intro x _
    by_cases hx : x = a.toNat
    · subst hx
      rw [if_pos rfl]
      have hset : (Finset.range g.width).filter
          (fun y => aliveAt (setCell g a b true none) a.toNat y = true) =
          insert b.toNat ((Finset.range g.width).filter
            (fun y => aliveAt g a.toNat y = true)) := by
        ext y
        simp only [Finset.mem_filter, Finset.mem_insert, Finset.mem_range,
          hpt, decide_eq_true_eq, Bool.or_eq_true, Bool.and_eq_true]
        constructor
        · rintro ⟨hy, ⟨-, h⟩ | h⟩
          · exact Or.inl h
          · exact Or.inr ⟨hy, h⟩
        · rintro (h | ⟨hy, h⟩)
          · subst h
            exact ⟨by omega, Or.inl ⟨by simp, by simp⟩⟩
          · exact ⟨hy, Or.inr h⟩
      rw [hset, Finset.card_insert_of_not_mem]
      simp only [Finset.mem_filter, Finset.mem_range, not_and]
      intro _
      rw [hdead]
      simp
    · rw [if_neg hx, add_zero]
      apply Finset.card_nbij id
      · intro y hy
        simp only [Finset.mem_filter, Finset.mem_range, hpt,
          Bool.or_eq_true, Bool.and_eq_true, decide_eq_true_eq] at hy ⊢
        rcases hy with ⟨h1, ⟨h2, -⟩ | h2⟩
        · omega
        · exact ⟨h1, h2⟩
      · intro y1 hy1 y2 hy2 h
        exact h
      · intro y hy
        simp only [Finset.coe_filter, Finset.mem_range, Set.mem_image,
          Set.mem_setOf_eq, hpt, Bool.or_eq_true, Bool.and_eq_true,
          decide_eq_true_eq] at hy ⊢
        exact ⟨y, ⟨hy.1, Or.inr hy.2⟩, rfl⟩
  rw [Finset.sum_congr rfl hrow, Finset.sum_add_distrib,
    Finset.sum_ite_eq' (Finset.range g.height) a.toNat (fun _ => 1)]
  rw [if_pos (Finset.mem_range.mpr (by omega))]

theorem aliveCount_setCell_out (g : Game) (a b : Int)
    (hb : inBounds g a b = false) :
    aliveCount (setCell g a b true none) = aliveCount g := by
  unfold setCell
  rw [hb]
  simp

theorem setCell_out (g : Game) (a b : Int) (al : Bool) (ct : Option Cell)
    (hb : inBounds g a b = false) : setCell g a b al ct = g := by
  unfold setCell
  rw [hb]
  simp

theorem aliveAt_clearGrid (g : Game) (x y : Nat) :
    aliveAt (clearGrid g) x y = false := by
  unfold aliveAt
  rw [show (clearGrid g).grid = freshGrid g.height g.width from rfl,
    cellAt_freshGrid]
  rfl

theorem inBounds_clearGrid (g : Game) (x y : Int) :
    inBounds (clearGrid g) x y = inBounds g x y :=
  inBounds_congr _ _ rfl rfl x y

theorem aliveCount_clearGrid (g : Game) : aliveCount (clearGrid g) = 0 := by
  unfold aliveCount
  have hz : ∀ x ∈ Finset.range (clearGrid g).height,
      ((Finset.range (clearGrid g).width).filter
        (fun y => aliveAt (clearGrid g) x y = true)).card = 0 := by
    intro x _
    rw [Finset.card_eq_zero, Finset.filter_eq_empty_iff]
    intro y _
    rw [aliveAt_clearGrid]
    simp
  rw [Finset.sum_congr rfl hz, Finset.sum_const, smul_eq_mul, mul_zero]

theorem aliveCount_foldl_setCell (coords : List (Int × Int)) (g : Game)
    (hwf : WFGrid g) (hnd : coords.Nodup)
    (hdead : ∀ p ∈ coords, inBounds g p.1 p.2 = true →
      aliveAt g p.1.toNat p.2.toNat = false) :
    aliveCount (coords.foldl (fun acc p => setCell acc p.1 p.2 true none) g) =
      aliveCount g +
        (coords.filter (fun p => inBounds g p.1 p.2)).length := by
  induction coords generalizing g with
  | nil => simp
  | cons p rest ih =>
    rw [List.foldl_cons, List.filter_cons]
    have hwf1 := setCell_WF g hwf p.1 p.2 true none
    have hnd1 := (List.nodup_cons.mp hnd).2
    have hpnot := (List.nodup_cons.mp hnd).1
    by_cases hbp : inBounds g p.1 p.2 = true
    · have hdeadp := hdead p (List.mem_cons_self p rest) hbp
      have hdead1 : ∀ q ∈ rest,
          inBounds (setCell g p.1 p.2 true none) q.1 q.2 = true →
          aliveAt (setCell g p.1 p.2 true none) q.1.toNat q.2.toNat =
            false := by
        intro q hq hbq
        rw [inBounds_setCell] at hbq
        have hq0 : 0 ≤ q.1 ∧ 0 ≤ q.2 := by
          unfold inBounds at hbq
          simp only [Bool.and_eq_true, decide_eq_true_eq] at hbq
          tauto
        have hne : ¬(p.1 = ((q.1.toNat : Nat) : Int) ∧
            p.2 = ((q.2.toNat : Nat) : Int)) := by
          rintro ⟨e1, e2⟩
          apply hpnot
          have hp1 : p.1 = q.1 := by omega
          have hp2 : p.2 = q.2 := by omega
          have hpq : p = q := Prod.ext hp1 hp2
          rw [hpq]
          exact hq
        rw [aliveAt_setCell g hwf p.1 p.2,
          hdead q (List.mem_cons_of_mem p hq) hbq, Bool.or_false]
        by_cases e1 : p.1 = ((q.1.toNat : Nat) : Int)
        · have e2 : decide (p.2 = ((q.2.toNat : Nat) : Int)) = false :=
            decide_eq_false (fun e2 => hne ⟨e1, e2⟩)
          rw [e2, Bool.and_false]
        · rw [decide_eq_false e1, Bool.and_false, Bool.false_and]
      rw [ih (setCell g p.1 p.2 true none) hwf1 hnd1 hdead1,
        aliveCount_setCell_new g hwf p.1 p.2 hbp hdeadp]
      simp only [inBounds_setCell]
      rw [if_pos hbp, List.length_cons]
      omega
    · have hbp' : inBounds g p.1 p.2 = false := by
        simpa using hbp
      rw [setCell_out g p.1 p.2 true none hbp', ih g hwf hnd1
        (fun q hq => hdead q (List.mem_cons_of_mem p hq)), if_neg hbp]

set_option maxRecDepth 4096 in
theorem patternCoords_nodup (name : String) (coords : List (Int × Int))
    (h : patternCoords name = some coords) : coords.Nodup := by
  unfold patternCoords at h
  split_ifs at h <;>
    first
    | exact Option.noConfusion h
    | (injection h with h1; subst h1; decide)

set_option maxRecDepth 16384 in
/-- C10: for every grid and every known pattern name, `load_pattern`
returns true and the number of alive cells afterwards equals the
number of the pattern's coordinates that lie within the grid's bounds
(set_cell silently drops the rest); in particular the 48-cell pulsar
on a 10×10 grid leaves only 18 alive cells, strictly fewer than 48. -/
theorem load_known_pattern_count :
    (∀ (g : Game) (name : String) (coords : List (Int × Int)),
      patternCoords name = some coords →
      (loadPattern g name).1 = true ∧
      aliveCount (loadPattern g name).2 =
        (coords.filter (fun p => inBounds g p.1 p.2)).length) ∧
    aliveCount (loadPattern (mkGame 10 10 0) "pulsar").2 = 18 ∧
    (18 : Nat) < 48 := by
  refine ⟨?_, by decide, by omega⟩
  intro g name coords h
  unfold loadPattern
  rw [h]
  refine ⟨rfl, ?_⟩
  show aliveCount
    (coords.foldl (fun acc p => setCell acc p.1 p.2 true none)
      (clearGrid g)) = _
  rw [aliveCount_foldl_setCell coords (clearGrid g) (freshGrid_WF g)
    (patternCoords_nodup name coords h)
    (fun p _ _ => aliveAt_clearGrid g _ _),
    aliveCount_clearGrid, Nat.zero_add]
  congr 1

/-- C10 witness: the blinker on a 5×5 grid — all 3 coordinates are in
bounds. -/
theorem load_known_witness :
    (loadPattern (mkGame 5 5 0) "blinker").1 = true ∧
    aliveCount (loadPattern (mkGame 5 5 0) "blinker").2 =
      (([((1 : Int), (1 : Int)), (1, 2), (1, 3)]).filter
        (fun p => inBounds (mkGame 5 5 0) p.1 p.2)).length :=
  load_known_pattern_count.1 (mkGame 5 5 0) "blinker"
    [(1, 1), (1, 2), (1, 3)] (by decide)

theorem heapExtends_refl (h : Heap) : HeapExtends h h :=
  ⟨le_refl _, fun _ _ => rfl⟩

theorem heapExtends_trans {h0 h1 h2 : Heap} (h01 : HeapExtends h0 h1)
    (h12 : HeapExtends h1 h2) : HeapExtends h0 h2 :=
  ⟨le_trans h01.1 h12.1,
   fun i hi => (h12.2 i (lt_of_lt_of_le hi h01.1)).trans (h01.2 i hi)⟩

theorem heapExtends_alloc {h0 h1 : Heap} (he : HeapExtends h0 h1) (c : Cell) :
    HeapExtends h0 (h1.alloc c).2 := by
  constructor
  · show h0.fresh ≤ h1.fresh + 1
    have := he.1
    omega
  · intro i hi
    show Function.update h1.mem h1.fresh c i = h0.mem i
    rw [Function.update_noteq (by have := he.1; omega : i ≠ h1.fresh)]
    exact he.2 i hi

theorem heapExtends_write {h0 h1 : Heap} (he : HeapExtends h0 h1) (r : Nat)
    (hr : h0.fresh ≤ r) (c : Cell) : HeapExtends h0 (h1.write r c) := by
  constructor
  · exact he.1
  · intro i hi
    show Function.update h1.mem r c i = h0.mem i
    rw [Function.update_noteq (by omega : i ≠ r)]
    exact he.2 i hi

theorem allocCells_spec (n : Nat) (h : Heap) :
    (allocCells n h).1.length = n ∧
    HeapExtends h (allocCells n h).2 ∧
    ∀ r ∈ (allocCells n h).1, h.fresh ≤ r ∧ r < (allocCells n h).2.fresh := by
  induction n generalizing h with
  | zero => exact ⟨rfl, heapExtends_refl h, by simp [allocCells]⟩
  | succ n ih =>
    obtain ⟨l1, l2, l3⟩ := ih (h.alloc defaultCell).2
    have hfr : (h.alloc defaultCell).2.fresh = h.fresh + 1 := rfl
    have hext : HeapExtends h (allocCells (n + 1) h).2 :=
      heapExtends_trans (heapExtends_alloc (heapExtends_refl h) defaultCell) l2
    refine ⟨by simp [allocCells, l1], hext, ?_⟩
    intro r hr
    have hfin : (allocCells (n + 1) h).2.fresh =
        (allocCells n (h.alloc defaultCell).2).2.fresh := rfl
    have hup : h.fresh + 1 ≤ (allocCells n (h.alloc defaultCell).2).2.fresh := by
      rw [← hfr]
      exact l2.1
    rcases List.mem_cons.mp hr with h1 | h1
    · have hr1 : r = h.fresh := h1
      exact ⟨by omega, by rw [hfin]; omega⟩
    · have hb := l3 r h1
      have hb1 : h.fresh + 1 ≤ r := by
        rw [← hfr]
        exact hb.1
      exact ⟨by omega, by rw [hfin]; exact hb.2⟩

theorem allocGrid_spec (n w : Nat) (h : Heap) :
    (allocGrid n w h).1.length = n ∧
    (∀ row ∈ (allocGrid n w h).1, row.length = w) ∧
    HeapExtends h (allocGrid n w h).2 ∧
    ∀ r ∈ (allocGrid n w h).1.flatten,
      h.fresh ≤ r ∧ r < (allocGrid n w h).2.fresh := by
  induction n generalizing h with
  | zero => exact ⟨rfl, by simp [allocGrid], heapExtends_refl h,
      by simp [allocGrid]⟩
  | succ n ih =>
    obtain ⟨c1, c2, c3⟩ := allocCells_spec w h
    obtain ⟨l1, l2, l3, l4⟩ := ih (allocCells w h).2
    have hext : HeapExtends h (allocGrid (n + 1) w h).2 :=
      heapExtends_trans c2 l3
    refine ⟨by simp [allocGrid, l1], ?_, hext, ?_⟩
    · intro row hrow
      rcases List.mem_cons.mp hrow with h1 | h1
      · rw [h1]
        exact c1
      · exact l2 row h1
    · intro r hr
      have hfl : (allocGrid (n + 1) w h).1.flatten =
          (allocCells w h).1 ++ (allocGrid n w (allocCells w h).2).1.flatten :=
        rfl
      rw [hfl] at hr
      have hfin : (allocGrid (n + 1) w h).2.fresh =
          (allocGrid n w (allocCells w h).2).2.fresh := rfl
      have hup : (allocCells w h).2.fresh ≤
          (allocGrid n w (allocCells w h).2).2.fresh := l3.1
      rcases List.mem_append.mp hr with h1 | h1
      · have hb := c3 r h1
        exact ⟨hb.1, by rw [hfin]; omega⟩
      · have hb := l4 r h1
        have hlow : h.fresh ≤ (allocCells w h).2.fresh := c2.1
        exact ⟨by omega, by rw [hfin]; exact hb.2⟩

theorem mem_flatten_setRef {refs : List (List Nat)} {x y r : Nat} {a : Nat}
    (ha : a ∈ (setRef refs x y r).flatten) : a ∈ refs.flatten ∨ a = r := by
  unfold setRef at ha
  rcases List.mem_flatten.mp ha with ⟨row, hrow, hmem⟩
  rcases mem_modifyList hrow with h1 | ⟨row0, hrow0, he⟩
  · exact Or.inl (List.mem_flatten.mpr ⟨row, h1, hmem⟩)
  · rw [he] at hmem
    rcases mem_modifyList hmem with h2 | ⟨b, hb, hbe⟩
    · exact Or.inl (List.mem_flatten.mpr ⟨row0, hrow0, h2⟩)
    · exact Or.inr hbe

theorem refAt_mem (refs : List (List Nat)) (x y : Nat)
    (hx : x < refs.length) (hy : y < (refs.getD x []).length) :
    refAt refs x y ∈ refs.flatten := by
  unfold refAt
  exact List.mem_flatten.mpr
    ⟨refs.getD x [], getD_mem _ _ _ hx, getD_mem _ _ _ hy⟩

theorem goodSt_allocSet (hg : HGame) (x y : Nat)
    {st : List (List Nat) × Heap} (hst : GoodSt hg st) (c : Cell) :
    GoodSt hg (setRef st.1 x y (st.2.alloc c).1, (st.2.alloc c).2) := by
  obtain ⟨hlen, hrow, hext, hbnd⟩ := hst
  refine ⟨?_, ?_, heapExtends_alloc hext c, ?_⟩
  · show (modifyList st.1 x _).length = hg.height
    rw [length_modifyList]
    exact hlen
  · intro row hrow'
    rcases mem_modifyList hrow' with h | ⟨row0, hrow0, he⟩
    · exact hrow row h
    · rw [he, length_modifyList]
      exact hrow row0 hrow0
  · intro r hr
    rcases mem_flatten_setRef hr with h | h
    · have hb := hbnd r h
      refine ⟨hb.1, ?_⟩
      show r < st.2.fresh + 1
      omega
    · rw [h]
      show hg.heap.fresh ≤ st.2.fresh ∧ st.2.fresh < st.2.fresh + 1
      exact ⟨hext.1, by omega⟩

theorem goodSt_writeRef (hg : HGame) (x y : Nat)
    {st : List (List Nat) × Heap} (hst : GoodSt hg st)
    (hx : x < hg.height) (hy : y < hg.width) (c : Cell) :
    GoodSt hg (st.1, st.2.write (refAt st.1 x y) c) := by
  obtain ⟨hlen, hrow, hext, hbnd⟩ := hst
  have hr : refAt st.1 x y ∈ st.1.flatten := by
    apply refAt_mem
    · rw [hlen]
      exact hx
    · have hm : st.1.getD x [] ∈ st.1 := getD_mem _ _ _ (by rw [hlen]; exact hx)
      rw [hrow _ hm]
      exact hy
  have hrb := hbnd _ hr
  refine ⟨hlen, hrow, heapExtends_write hext _ hrb.1 c, ?_⟩
  intro r h
  exact ⟨(hbnd r h).1, (hbnd r h).2⟩

theorem goodSt_hBaseStep (hg : HGame) (oc : CellOracle) (x y : Nat)
    (hx : x < hg.height) (hy : y < hg.width)
    {st : List (List Nat) × Heap} (hst : GoodSt hg st) :
    GoodSt hg (hBaseStep hg oc x y st) := by
  unfold hBaseStep
  split_ifs with h1 h2 h3 h4
  · exact goodSt_allocSet hg x y hst _
  · exact hst
  · exact goodSt_allocSet hg x y hst _
  · exact goodSt_writeRef hg x y hst hx hy _
  · exact hst

theorem goodSt_hMutStep (hg : HGame) (oc : CellOracle) (x y : Nat)
    (hx : x < hg.height) (hy : y < hg.width)
    {st : List (List Nat) × Heap} (hst : GoodSt hg st) :
    GoodSt hg (hMutStep hg oc x y st) := by
  unfold hMutStep
  split_ifs with h1 h2 h3 h4 h5
  · exact goodSt_writeRef hg x y hst hx hy _
  · exact goodSt_writeRef hg x y hst hx hy _
  · exact goodSt_writeRef hg x y hst hx hy _
  · exact hst
  · exact hst
  · exact hst

theorem goodSt_hProcessCell (hg : HGame) (oc : CellOracle) (x y : Nat)
    (hx : x < hg.height) (hy : y < hg.width)
    {st : List (List Nat) × Heap} (hst : GoodSt hg st) :
    GoodSt hg (hProcessCell hg oc x y st) :=
  goodSt_hMutStep hg oc x y hx hy (goodSt_hBaseStep hg oc x y hx hy hst)

theorem mem_positions {h w : Nat} {p : Nat × Nat} (hp : p ∈ positions h w) :
    p.1 < h ∧ p.2 < w := by
  unfold positions at hp
  rw [List.mem_flatMap] at hp
  obtain ⟨x, hx, hmem⟩ := hp
  rw [List.mem_map] at hmem
  obtain ⟨y, hy, he⟩ := hmem
  rw [← he]
  exact ⟨List.mem_range.mp hx, List.mem_range.mp hy⟩

theorem goodSt_foldl (hg : HGame) (o : Oracle) (l : List (Nat × Nat))
    (hl : ∀ p ∈ l, p.1 < hg.height ∧ p.2 < hg.width)
    {st : List (List Nat) × Heap} (hst : GoodSt hg st) :
    GoodSt hg (l.foldl
      (fun st p => hProcessCell hg (o p.1 p.2) p.1 p.2 st) st) := by
  induction l generalizing st with
  | nil => exact hst
  | cons p rest ih =>
    rw [List.foldl_cons]
    exact ih (fun q hq => hl q (List.mem_cons_of_mem p hq))
      (goodSt_hProcessCell hg (o p.1 p.2) p.1 p.2
        (hl p (List.mem_cons_self p rest)).1
        (hl p (List.mem_cons_self p rest)).2 hst)

/-- C5: `next_generation` never mutates any Cell object of the grid it
reads.  In the heap model — where Python object identity is explicit —
every object referenced from the previous grid holds exactly the same
cell value (liveness and all traits) after the step as before it;
only freshly allocated objects are ever written. -/
theorem nextGeneration_reads_frozen (o : Oracle) (hg : HGame)
    (href : ∀ r ∈ hg.refs.flatten, r < hg.heap.fresh)
    (h0 : 0 < hg.heap.fresh) :
    ∀ x y : Nat,
      (hNextGeneration o hg).heap.mem (refAt hg.refs x y) =
        hg.heap.mem (refAt hg.refs x y) := by
  intro x y
  have hinit : GoodSt hg (allocGrid hg.height hg.width hg.heap) := by
    obtain ⟨l1, l2, l3, l4⟩ := allocGrid_spec hg.height hg.width hg.heap
    exact ⟨l1, l2, l3, l4⟩
  have hfin : GoodSt hg ((positions hg.height hg.width).foldl
      (fun st p => hProcessCell hg (o p.1 p.2) p.1 p.2 st)
      (allocGrid hg.height hg.width hg.heap)) :=
    goodSt_foldl hg o _ (fun p hp => mem_positions hp) hinit
  have hlt : refAt hg.refs x y < hg.heap.fresh := by
    unfold refAt
    by_cases hx : x < hg.refs.length
    · by_cases hy : y < (hg.refs.getD x []).length
      · exact href _ (refAt_mem hg.refs x y hx hy)
      · rw [getD_of_length_le _ _ _ (by omega)]
        exact h0
    · rw [getD_of_length_le hg.refs x [] (by omega)]
      exact h0
  exact hfin.2.2.1.2 _ hlt

/-- C5 witness: on the concrete 2×2 heap-model block with mutation
rate 1 and a kill tape, the old grid's object 0 (the red cell) is
untouched by `next_generation`. -/
theorem nextGeneration_reads_frozen_witness :
    (hNextGeneration killTape hBlockGame).heap.mem
        (refAt hBlockGame.refs 0 0) =
      hBlockGame.heap.mem (refAt hBlockGame.refs 0 0) :=
  nextGeneration_reads_frozen killTape hBlockGame (by decide) (by decide) 0 0

end GameOfLife
